import Mathlib

/-!
Verification of the alpa device-mesh runtime (src/alpa/device_mesh.py)
against its natural-language specification.

The Python source is shallowly embedded: each worker's mutable dict
becomes an explicit association list with unique keys, and Python
exceptions become an explicit error type following the spec's error
taxonomy (section 7 of the spec).  Floating point cost-model literals
(0.01, 0.1, bandwidths) are modelled with rational numbers.
-/

/-- Error taxonomy of the spec (section 7): AlreadyExists, NotFound,
PreconditionViolation, Unsupported, InvalidInput. -/
inductive WorkerErr where
  | alreadyExists
  | notFound
  | preconditionViolation
  | unsupported
  | invalidInput
deriving DecidableEq, Repr

/-- Lookup in a Python-dict-like association list: the first entry whose
key matches.  Python dicts have unique keys, so first-match equals the
dict lookup. -/
def dictLookup {α β : Type} [DecidableEq α] : List (α × β) → α → Option β
  | [], _ => none
  | (k, v) :: rest, u => if k = u then some v else dictLookup rest u

/-- Removal of a key from a Python-dict-like association list (del d of k):
removes the first entry with that key. -/
def dictErase {α β : Type} [DecidableEq α] : List (α × β) → α → List (α × β)
  | [], _ => []
  | (k, v) :: rest, u => if k = u then rest else (k, v) :: dictErase rest u

/-- Assignment of v to key k in a Python-dict-like association list:
replaces the value in place if the key is present, else appends (Python
dicts keep insertion order and keep the original position on overwrite). -/
def dictInsert {α β : Type} [DecidableEq α] : List (α × β) → α → β → List (α × β)
  | [], k, v => [(k, v)]
  | (k', v') :: rest, k, v =>
      if k' = k then (k, v) :: rest else (k', v') :: dictInsert rest k v

/-- A device-resident buffer as stored by MeshHostWorker.put_buffer: the
backend copies the host data onto the device at index device_id of the
worker's local device list and the worker stores the resulting handle.
We record the target device and the stored value. -/
structure DeviceBuffer (Data : Type) where
  device_id : Nat
  value : Data
deriving DecidableEq, Repr

/-- State of a MeshHostWorker that the buffer operations touch: the
buffers dict mapping uuid to device buffer
(src/alpa/device_mesh.py line 82). -/
structure MeshHostWorker (Data : Type) where
  buffers : List (Nat × DeviceBuffer Data)
deriving DecidableEq, Repr

/-- MeshHostWorker.put_buffer (lines 99-102): asserts the uuid is not
already present (AlreadyExists in the spec's taxonomy), then stores the
device copy of the data under the uuid. -/
def put_buffer {D : Type} (w : MeshHostWorker D) (uuid device_id : Nat) (data : D) :
    Except WorkerErr (MeshHostWorker D) :=
  match dictLookup w.buffers uuid with
  | some _ => .error .alreadyExists
  | none => .ok ⟨w.buffers ++ [(uuid, ⟨device_id, data⟩)]⟩

/-- MeshHostWorker.get_buffers on a single (non-iterable) uuid
(lines 112-115): returns the dict entry, NotFound (KeyError) when
absent. -/
def get_buffer {D : Type} (w : MeshHostWorker D) (uuid : Nat) :
    Except WorkerErr (DeviceBuffer D) :=
  match dictLookup w.buffers uuid with
  | some b => .ok b
  | none => .error .notFound

/-- MeshHostWorker.get_buffers on a list of uuids (lines 112-115): the
list comprehension looks each uuid up left to right and raises at the
first missing one. -/
def get_buffers {D : Type} (w : MeshHostWorker D) :
    List Nat → Except WorkerErr (List (DeviceBuffer D))
  | [] => .ok []
  | u :: rest =>
    match dictLookup w.buffers u with
    | none => .error .notFound
    | some b =>
      match get_buffers w rest with
      | .error e => .error e
      | .ok bs => .ok (b :: bs)

/-- MeshHostWorker.delete_buffers on a single uuid (lines 117-122):
removes the dict entry, NotFound (KeyError) when absent. -/
def delete_buffer {D : Type} (w : MeshHostWorker D) (uuid : Nat) :
    Except WorkerErr (MeshHostWorker D) :=
  match dictLookup w.buffers uuid with
  | some _ => .ok ⟨dictErase w.buffers uuid⟩
  | none => .error .notFound

/-- MeshHostWorker.delete_buffers on a list of uuids (lines 117-122): the
loop deletes uuids one by one; a missing uuid raises KeyError (NotFound)
at that point, and because the worker's dict is mutated in place, the
deletions already performed persist.  The result pairs the worker state
as left behind with the error, if any. -/
def delete_buffers {D : Type} (w : MeshHostWorker D) :
    List Nat → MeshHostWorker D × Option WorkerErr
  | [] => (w, none)
  | u :: rest =>
    match dictLookup w.buffers u with
    | some _ => delete_buffers ⟨dictErase w.buffers u⟩ rest
    | none => (w, some .notFound)

/-- Keys of a worker's buffer dict are unique (true of every Python dict;
association lists reachable through put_buffer and delete_buffers keep
it). -/
abbrev bufKeysNodup {D : Type} (w : MeshHostWorker D) : Prop :=
  (w.buffers.map Prod.fst).Nodup

theorem dictLookup_not_mem {α β : Type} [DecidableEq α]
    (l : List (α × β)) (u : α) (h : u ∉ l.map Prod.fst) :
    dictLookup l u = none := by
  induction l with
  | nil => rfl
  | cons p rest ih =>
    obtain ⟨k, v⟩ := p
    simp only [List.map_cons, List.mem_cons] at h
    push_neg at h
    have hne : ¬(k = u) := fun he => h.1 he.symm
    simp only [dictLookup, if_neg hne]
    exact ih h.2

theorem dictLookup_append_right {α β : Type} [DecidableEq α]
    (l l' : List (α × β)) (u : α) (h : dictLookup l u = none) :
    dictLookup (l ++ l') u = dictLookup l' u := by
  induction l with
  | nil => rfl
  | cons p rest ih =>
    obtain ⟨k, v⟩ := p
    by_cases hk : k = u
    · simp [dictLookup, hk] at h
    · simp only [dictLookup, if_neg hk] at h
      simp only [List.cons_append, dictLookup, if_neg hk]
      exact ih h

theorem dictLookup_erase_self {α β : Type} [DecidableEq α]
    (l : List (α × β)) (u : α) (h : (l.map Prod.fst).Nodup) :
    dictLookup (dictErase l u) u = none := by
  induction l with
  | nil => rfl
  | cons p rest ih =>
    obtain ⟨k, v⟩ := p
    simp only [List.map_cons, List.nodup_cons] at h
    by_cases hk : k = u
    · subst hk
      simp only [dictErase, if_pos rfl]
      exact dictLookup_not_mem rest k h.1
    · simp only [dictErase, if_neg hk, dictLookup, if_neg hk]
      exact ih h.2

theorem dictLookup_erase_ne {α β : Type} [DecidableEq α]
    (l : List (α × β)) (u x : α) (hx : x ≠ u) :
    dictLookup (dictErase l u) x = dictLookup l x := by
  induction l with
  | nil => rfl
  | cons p rest ih =>
    obtain ⟨k, v⟩ := p
    by_cases hk : k = u
    · have hkx : ¬(k = x) := fun he => hx (he.symm.trans hk)
      simp only [dictErase, if_pos hk, dictLookup, if_neg hkx]
    · by_cases hkx : k = x
      · simp only [dictErase, if_neg hk, dictLookup, if_pos hkx]
      · simp only [dictErase, if_neg hk, dictLookup, if_neg hkx]
        exact ih

theorem dictErase_keys_sublist {α β : Type} [DecidableEq α]
    (l : List (α × β)) (u : α) :
    ((dictErase l u).map Prod.fst).Sublist (l.map Prod.fst) := by
  induction l with
  | nil => simp [dictErase]
  | cons p rest ih =>
    obtain ⟨k, v⟩ := p
    by_cases hk : k = u
    · simp only [dictErase, if_pos hk, List.map_cons]
      exact (List.Sublist.refl _).cons _
    · simp only [dictErase, if_neg hk, List.map_cons]
      exact ih.cons₂ _

theorem dictErase_nodup {α β : Type} [DecidableEq α]
    (l : List (α × β)) (u : α) (h : (l.map Prod.fst).Nodup) :
    ((dictErase l u).map Prod.fst).Nodup :=
  (dictErase_keys_sublist l u).nodup h

/-- A successful run of delete_buffers keeps an already-absent uuid
absent (dict deletions only shrink the key set). -/
theorem delete_buffers_preserves_absent {D : Type} (l : List Nat) :
    ∀ (w w₁ : MeshHostWorker D) (x : Nat), bufKeysNodup w →
      dictLookup w.buffers x = none → delete_buffers w l = (w₁, none) →
      dictLookup w₁.buffers x = none := by
  induction l with
  | nil =>
    intro w w₁ x _ habs hrun
    simp only [delete_buffers] at hrun
    cases hrun
    exact habs
  | cons c cs ih =>
    intro w w₁ x hnodup habs hrun
    simp only [delete_buffers] at hrun
    cases hlc : dictLookup w.buffers c with
    | none => simp [hlc] at hrun
    | some bc =>
      simp only [hlc] at hrun
      refine ih ⟨dictErase w.buffers c⟩ w₁ x (dictErase_nodup _ _ hnodup) ?_ hrun
      by_cases hcx : x = c
      · subst hcx
        exact dictLookup_erase_self _ _ hnodup
      · rw [dictLookup_erase_ne _ _ _ hcx]
        exact habs

/-- After a successful run of delete_buffers, every uuid of the list is
absent from the worker's buffer dict. -/
theorem delete_buffers_all_removed {D : Type} (l : List Nat) :
    ∀ (w w₁ : MeshHostWorker D), bufKeysNodup w →
      delete_buffers w l = (w₁, none) →
      ∀ x ∈ l, dictLookup w₁.buffers x = none := by
  induction l with
  | nil =>
    intro w w₁ _ _ x hx
    exact absurd hx (List.not_mem_nil x)
  | cons c cs ih =>
    intro w w₁ hnodup hrun x hx
    simp only [delete_buffers] at hrun
    cases hlc : dictLookup w.buffers c with
    | none => simp [hlc] at hrun
    | some bc =>
      simp only [hlc] at hrun
      rcases List.mem_cons.mp hx with hxc | hxr
      · subst hxc
        exact delete_buffers_preserves_absent cs ⟨dictErase w.buffers x⟩ w₁ x
          (dictErase_nodup _ _ hnodup) (dictLookup_erase_self _ _ hnodup) hrun
      · exact ih ⟨dictErase w.buffers c⟩ w₁ (dictErase_nodup _ _ hnodup) hrun x hxr

/-- C9: delete_buffers on a list of uuids is not atomic on error.  If
every uuid in the first segment deletes successfully and the next uuid is
absent at that point, the call fails with NotFound, the worker is left in
the partially-mutated state reached after the first segment (so those
removals persist: each uuid of the segment is gone from the buffer dict),
and the uuids after the failing one are untouched. -/
theorem delete_buffers_partial_mutation {D : Type}
    (w w₁ : MeshHostWorker D) (l₁ l₂ : List Nat) (u : Nat)
    (hnodup : bufKeysNodup w)
    (hrun : delete_buffers w l₁ = (w₁, none))
    (habs : dictLookup w₁.buffers u = none) :
    delete_buffers w (l₁ ++ u :: l₂) = (w₁, some .notFound) ∧
    ∀ x ∈ l₁, dictLookup w₁.buffers x = none := by
  constructor
  · induction l₁ generalizing w with
    | nil =>
      simp only [delete_buffers] at hrun
      cases hrun
      simp [delete_buffers, habs]
    | cons a rest ih =>
      simp only [delete_buffers] at hrun
      cases hlook : dictLookup w.buffers a with
      | none => simp [hlook] at hrun
      | some b =>
        simp only [hlook] at hrun
        simp only [List.cons_append, delete_buffers, hlook]
        exact ih ⟨dictErase w.buffers a⟩ (dictErase_nodup _ _ hnodup) hrun
  · exact delete_buffers_all_removed l₁ w w₁ hnodup hrun

/-- Concrete instance of the C9 theorem: worker holding uuids 1 and 2,
deleting the list with 1 first, then the absent 5, then 2: uuid 1 is
removed and stays removed, the call fails with NotFound, uuid 2 survives. -/
theorem delete_buffers_partial_mutation_witness :
    delete_buffers (D := Nat) ⟨[(1, ⟨0, 10⟩), (2, ⟨1, 20⟩)]⟩ [1, 5, 2] =
      (⟨[(2, ⟨1, 20⟩)]⟩, some .notFound) ∧
    dictLookup (α := Nat) (β := DeviceBuffer Nat) [(2, ⟨1, 20⟩)] 1 = none := by
  have h := delete_buffers_partial_mutation (D := Nat)
    ⟨[(1, ⟨0, 10⟩), (2, ⟨1, 20⟩)]⟩ ⟨[(2, ⟨1, 20⟩)]⟩ [1] [2] 5
    (by decide) (by decide) (by decide)
  exact ⟨h.1, h.2 1 (by decide)⟩

/-- C1: on a worker whose buffer dict has unique keys, for a uuid not yet
present, put_buffer stores a handle whose value a subsequent get_buffers
returns; put_buffer on a present uuid fails with AlreadyExists; after
delete_buffers the uuid, get_buffers fails with NotFound; and
delete_buffers on an absent uuid fails with NotFound. -/
theorem put_get_delete_buffer_spec {D : Type} [DecidableEq D]
    (w : MeshHostWorker D) (u dev : Nat) (X : D) (hnodup : bufKeysNodup w) :
    (dictLookup w.buffers u = none →
      ∃ w', put_buffer w u dev X = .ok w' ∧ get_buffer w' u = .ok ⟨dev, X⟩) ∧
    ((∃ b, dictLookup w.buffers u = some b) →
      ∀ d' X', put_buffer w u d' X' = .error .alreadyExists) ∧
    (∀ w'', delete_buffer w u = .ok w'' → get_buffer w'' u = .error .notFound) ∧
    (dictLookup w.buffers u = none → delete_buffer w u = .error .notFound) := by
  refine ⟨?_, ?_, ?_, ?_⟩
  · intro habs
    refine ⟨⟨w.buffers ++ [(u, ⟨dev, X⟩)]⟩, ?_, ?_⟩
    · simp [put_buffer, habs]
    · simp [get_buffer, dictLookup_append_right _ _ _ habs, dictLookup]
  · rintro ⟨b, hb⟩ d' X'
    simp [put_buffer, hb]
  · intro w'' hdel
    simp only [delete_buffer] at hdel
    cases hlook : dictLookup w.buffers u with
    | none => simp [hlook] at hdel
    | some b =>
      simp only [hlook] at hdel
      cases hdel
      simp [get_buffer, dictLookup_erase_self _ _ hnodup]
  · intro habs
    simp [delete_buffer, habs]

/-- Concrete instance of the C1 theorem: worker with buffer 3 present,
exercising put then get on the fresh uuid 7. -/
theorem put_get_delete_buffer_spec_witness :
    ∃ w', put_buffer (D := Nat) ⟨[(3, ⟨0, 5⟩)]⟩ 7 0 42 = .ok w' ∧
      get_buffer w' 7 = .ok ⟨0, 42⟩ :=
  (put_get_delete_buffer_spec ⟨[(3, ⟨0, 5⟩)]⟩ 7 0 42 (by decide)).1 (by decide)

/-- Loop of DistributedArray.one_replica_buffer_indices (lines 915-923):
walks the stored indices with a running position counter and the ordered
set of index hashes seen so far, keeping a position exactly when its
hashed index has not been seen, and then recording the hash as seen. -/
def one_replica_buffer_indices_go {α β : Type} [DecidableEq β] (hash : α → β) :
    List α → Nat → List β → List Nat
  | [], _, _ => []
  | index :: rest, i, seen =>
      if hash index ∈ seen then
        one_replica_buffer_indices_go hash rest (i + 1) seen
      else i :: one_replica_buffer_indices_go hash rest (i + 1) (seen ++ [hash index])

/-- DistributedArray.one_replica_buffer_indices (lines 912-924), with the
hashable-index function (jax pxla hashable-index helper) abstracted as a
parameter: positions of buffers containing one complete copy of the
array data. -/
def one_replica_buffer_indices {α β : Type} [DecidableEq β]
    (hash : α → β) (indices : List α) : List Nat :=
  one_replica_buffer_indices_go hash indices 0 []

theorem one_replica_go_mem {α β : Type} [DecidableEq β] [Inhabited α]
    (hash : α → β) (l : List α) :
    ∀ (n : Nat) (seen : List β) (i : Nat),
      i ∈ one_replica_buffer_indices_go hash l n seen ↔
        ∃ k, k < l.length ∧ i = n + k ∧ hash (l.getD k default) ∉ seen ∧
          ∀ j < k, hash (l.getD j default) ≠ hash (l.getD k default) := by
  induction l with
  | nil =>
    intro n seen i
    simp [one_replica_buffer_indices_go]
  | cons x rest ih =>
    intro n seen i
    by_cases hs : hash x ∈ seen
    · simp only [one_replica_buffer_indices_go, if_pos hs]
      rw [ih]
      constructor
      · rintro ⟨k', hk', hik', hnotin, hfirst⟩
        refine ⟨k' + 1, by simpa using Nat.succ_lt_succ hk', by omega, by simpa using hnotin, ?_⟩
        intro j hj
        match j, hj with
        | 0, _ =>
          simp only [List.getD_cons_zero, List.getD_cons_succ]
          intro he
          exact hnotin (he ▸ hs)
        | j' + 1, hj =>
          simpa using hfirst j' (by omega)
      · rintro ⟨k, hk, hik, hnotin, hfirst⟩
        match k, hk with
        | 0, _ =>
          simp only [List.getD_cons_zero] at hnotin
          exact absurd hs hnotin
        | k' + 1, hk =>
          refine ⟨k', by simpa using Nat.lt_of_succ_lt_succ hk, by omega,
            by simpa using hnotin, ?_⟩
          intro j hj
          have := hfirst (j + 1) (by omega)
          simpa using this
    · simp only [one_replica_buffer_indices_go, if_neg hs, List.mem_cons]
      rw [ih]
      constructor
      · rintro (hin | ⟨k', hk', hik', hnotin, hfirst⟩)
        · exact ⟨0, by simp, by omega, by simpa using hs, by omega⟩
        · simp only [List.mem_append, List.mem_singleton] at hnotin
          push_neg at hnotin
          refine ⟨k' + 1, by simpa using Nat.succ_lt_succ hk', by omega,
            by simpa using hnotin.1, ?_⟩
          intro j hj
          match j, hj with
          | 0, _ =>
            simp only [List.getD_cons_zero, List.getD_cons_succ]
            exact fun he => hnotin.2 he.symm
          | j' + 1, hj =>
            simpa using hfirst j' (by omega)
      · rintro ⟨k, hk, hik, hnotin, hfirst⟩
        match k, hk with
        | 0, _ => exact Or.inl (by omega)
        | k' + 1, hk =>
          refine Or.inr ⟨k', by simpa using Nat.lt_of_succ_lt_succ hk, by omega, ?_, ?_⟩
          · simp only [List.getD_cons_succ] at hnotin hfirst
            have h0 := hfirst 0 (by omega)
            simp only [List.getD_cons_zero] at h0
            simp only [List.mem_append, List.mem_singleton]
            push_neg
            exact ⟨hnotin, fun he => h0 he.symm⟩
          · intro j hj
            have := hfirst (j + 1) (by omega)
            simpa using this

theorem one_replica_go_sorted {α β : Type} [DecidableEq β]
    (hash : α → β) (l : List α) :
    ∀ (n : Nat) (seen : List β),
      (one_replica_buffer_indices_go hash l n seen).Pairwise (· < ·) ∧
      ∀ i ∈ one_replica_buffer_indices_go hash l n seen, n ≤ i := by
  induction l with
  | nil =>
    intro n seen
    simp [one_replica_buffer_indices_go]
  | cons x rest ih =>
    intro n seen
    by_cases hs : hash x ∈ seen
    · simp only [one_replica_buffer_indices_go, if_pos hs]
      obtain ⟨h1, h2⟩ := ih (n + 1) seen
      exact ⟨h1, fun i hi => le_trans (Nat.le_succ n) (h2 i hi)⟩
    · simp only [one_replica_buffer_indices_go, if_neg hs]
      obtain ⟨h1, h2⟩ := ih (n + 1) (seen ++ [hash x])
      refine ⟨List.pairwise_cons.mpr ⟨fun i hi => lt_of_lt_of_le (Nat.lt_succ_self n) (h2 i hi), h1⟩, ?_⟩
      intro i hi
      rcases List.mem_cons.mp hi with hin | hit
      · omega
      · exact le_trans (Nat.le_succ n) (h2 i hit)

/-- C2: one_replica_buffer_indices returns exactly the positions of the
first occurrence of each distinct hashed shard index, in increasing
order: a position is returned iff no earlier position has the same
hashed index.  In particular, on indices 10, 10, 20, 30 (so that the
second entry's hash equals the first's) it returns positions 0, 2, 3. -/
theorem one_replica_buffer_indices_spec {α β : Type} [DecidableEq β] [Inhabited α]
    (hash : α → β) (indices : List α) :
    (one_replica_buffer_indices hash indices).Pairwise (· < ·) ∧
    (∀ i, i ∈ one_replica_buffer_indices hash indices ↔
      i < indices.length ∧
      ∀ j < i, hash (indices.getD j default) ≠ hash (indices.getD i default)) ∧
    one_replica_buffer_indices (fun n : Nat => n) [10, 10, 20, 30] = [0, 2, 3] := by
  refine ⟨(one_replica_go_sorted hash indices 0 []).1, ?_, by decide⟩
  intro i
  rw [one_replica_buffer_indices, one_replica_go_mem]
  constructor
  · rintro ⟨k, hk, hik, -, hfirst⟩
    have : i = k := by omega
    subst this
    exact ⟨hk, hfirst⟩
  · rintro ⟨hi, hfirst⟩
    exact ⟨i, hi, by omega, by simp, hfirst⟩

/-- Witness for the C2 theorem at a concrete input: position 2 is kept
because no earlier index hashes alike. -/
theorem one_replica_buffer_indices_spec_witness :
    2 ∈ one_replica_buffer_indices (fun n : Nat => n % 100) [10, 110, 20, 30] :=
  ((one_replica_buffer_indices_spec (fun n : Nat => n % 100)
    [10, 110, 20, 30]).2.1 2).mpr ⟨by decide, by decide⟩

/-- The fields of a DistributedArray that its delete method touches
(lines 889-910): the ordered remote buffer references, the cached host
materialization, and the attribute named device_buffers that delete
assigns (no other method of the class reads or writes it; before the
first delete the Python object has no such attribute, modelled as
none). -/
structure DistributedArray (Buf Val : Type) where
  remote_buffers : List Buf
  npy_value : Option Val
  device_buffers : Option (List Buf)
deriving DecidableEq, Repr

/-- DistributedArray.delete (lines 906-910).  The loop runs del on the
loop variable buf, which only unbinds that local name and leaves the
remote_buffers list and all its references intact; the method then
assigns None to the attribute device_buffers (which nothing reads) and
clears the cached materialization. -/
def DistributedArray.delete {Buf Val : Type} (arr : DistributedArray Buf Val) :
    DistributedArray Buf Val :=
  { arr with device_buffers := none, npy_value := none }

/-- C8 (code bug evidence): delete on a DistributedArray holding three
remote buffer references clears the cached materialization but leaves
remote_buffers exactly as it was, so the buffer references are not
released, contrary to the spec's release-on-delete lifecycle. -/
theorem distributed_array_delete_keeps_buffer_refs :
    (DistributedArray.delete
      (⟨[1, 2, 3], some 7, none⟩ : DistributedArray Nat Nat)).remote_buffers =
        [1, 2, 3] ∧
    (DistributedArray.delete
      (⟨[1, 2, 3], some 7, none⟩ : DistributedArray Nat Nat)).npy_value = none := by
  exact ⟨rfl, rfl⟩

/-- State of a ReplicatedDistributedArray (lines 950-989): the two dicts
mapping participating mesh to replica and replica to mesh.  Meshes and
arrays are identified by opaque ids. -/
structure ReplicatedDistributedArray where
  mesh_array_map : List (Nat × Nat)
  array_mesh_map : List (Nat × Nat)
deriving DecidableEq, Repr

/-- Constructor of ReplicatedDistributedArray (lines 961-968): zips the
given meshes and arrays and writes each pair into both dicts, with no
duplicate check (a duplicate mesh or array silently overwrites the
earlier dict entry). -/
def ReplicatedDistributedArray.init (device_meshes arrays : List Nat) :
    ReplicatedDistributedArray :=
  (device_meshes.zip arrays).foldl
    (fun s p =>
      { mesh_array_map := dictInsert s.mesh_array_map p.1 p.2
        array_mesh_map := dictInsert s.array_mesh_map p.2 p.1 })
    ⟨[], []⟩

/-- ReplicatedDistributedArray.add_replica (lines 981-989): fails with
AlreadyExists (RuntimeError in the source) if the array is registered
under any mesh or the mesh already holds a replica, else records the
pair in both dicts. -/
def ReplicatedDistributedArray.add_replica (s : ReplicatedDistributedArray)
    (mesh array : Nat) : Except WorkerErr ReplicatedDistributedArray :=
  match dictLookup s.array_mesh_map array with
  | some _ => .error .alreadyExists
  | none =>
    match dictLookup s.mesh_array_map mesh with
    | some _ => .error .alreadyExists
    | none =>
      .ok ⟨dictInsert s.mesh_array_map mesh array,
           dictInsert s.array_mesh_map array mesh⟩

/-- The claimed invariant: the mesh-to-array and array-to-mesh dicts are
mutual inverses (hence no replica is registered under two meshes and no
mesh holds two replicas). -/
def rda_inv (s : ReplicatedDistributedArray) : Prop :=
  ∀ m a, dictLookup s.mesh_array_map m = some a ↔
    dictLookup s.array_mesh_map a = some m

theorem dictLookup_dictInsert {α β : Type} [DecidableEq α]
    (l : List (α × β)) (k : α) (v : β) (x : α) :
    dictLookup (dictInsert l k v) x =
      if x = k then some v else dictLookup l x := by
  induction l with
  | nil =>
    by_cases hx : x = k
    · simp [dictInsert, dictLookup, hx]
    · simp only [dictInsert, dictLookup, if_neg hx]
      rw [if_neg (fun he => hx he.symm)]
  | cons p rest ih =>
    obtain ⟨k', v'⟩ := p
    by_cases hk' : k' = k
    · subst hk'
      by_cases hx : x = k'
      · simp [dictInsert, dictLookup, hx]
      · simp only [dictInsert, if_pos rfl, dictLookup, if_neg (fun he : k' = x => hx he.symm)]
        rw [if_neg hx]
    · simp only [dictInsert, if_neg hk', dictLookup]
      by_cases hx : k' = x
      · subst hx
        rw [if_pos rfl, if_neg (fun he : k' = k => hk' he)]
        simp [dictLookup]
      · rw [if_neg hx, ih]
        rw [if_neg hx]

/-- Inserting a pair fresh on both sides preserves the mutual-inverse
invariant. -/
theorem rda_inv_insert (s : ReplicatedDistributedArray) (m a : Nat)
    (hinv : rda_inv s)
    (hm : dictLookup s.mesh_array_map m = none)
    (ha : dictLookup s.array_mesh_map a = none) :
    rda_inv ⟨dictInsert s.mesh_array_map m a, dictInsert s.array_mesh_map a m⟩ := by
  intro m' a'
  simp only [dictLookup_dictInsert]
  by_cases hm' : m' = m
  · subst hm'
    by_cases ha' : a' = a
    · subst ha'
      simp
    · rw [if_pos rfl, if_neg ha']
      constructor
      · intro he
        exact absurd (Option.some.inj he) (fun h => ha' h.symm)
      · intro he
        have := (hinv m' a').mpr he
        rw [hm] at this
        cases this
  · by_cases ha' : a' = a
    · subst ha'
      rw [if_neg hm', if_pos rfl]
      constructor
      · intro he
        have := (hinv m' a').mp he
        rw [ha] at this
        cases this
      · intro he
        exact absurd (Option.some.inj he) (fun h => hm' h.symm)
    · rw [if_neg hm', if_neg ha']
      exact hinv m' a'

theorem zip_map_fst_sublist {α β : Type} (l₁ : List α) (l₂ : List β) :
    ((l₁.zip l₂).map Prod.fst).Sublist l₁ := by
  induction l₁ generalizing l₂ with
  | nil => simp
  | cons x xs ih =>
    cases l₂ with
    | nil => simp
    | cons y ys =>
      simp only [List.zip_cons_cons, List.map_cons]
      exact (ih ys).cons₂ x

theorem zip_map_snd_sublist {α β : Type} (l₁ : List α) (l₂ : List β) :
    ((l₁.zip l₂).map Prod.snd).Sublist l₂ := by
  induction l₁ generalizing l₂ with
  | nil => simp
  | cons x xs ih =>
    cases l₂ with
    | nil => simp
    | cons y ys =>
      simp only [List.zip_cons_cons, List.map_cons]
      exact (ih ys).cons₂ y

/-- Folding the constructor's per-pair dict writes over pairs with
pairwise distinct meshes and pairwise distinct arrays, all fresh for the
current state, preserves the mutual-inverse invariant. -/
theorem rda_init_fold_inv (l : List (Nat × Nat)) :
    ∀ (s : ReplicatedDistributedArray), rda_inv s →
      (∀ p ∈ l, dictLookup s.mesh_array_map p.1 = none ∧
        dictLookup s.array_mesh_map p.2 = none) →
      (l.map Prod.fst).Nodup → (l.map Prod.snd).Nodup →
      rda_inv (l.foldl
        (fun s p =>
          { mesh_array_map := dictInsert s.mesh_array_map p.1 p.2
            array_mesh_map := dictInsert s.array_mesh_map p.2 p.1 })
        s) := by
  induction l with
  | nil =>
    intro s hinv _ _ _
    exact hinv
  | cons p rest ih =>
    intro s hinv hfresh hfst hsnd
    obtain ⟨m, a⟩ := p
    simp only [List.map_cons, List.nodup_cons] at hfst hsnd
    simp only [List.foldl_cons]
    have hf := hfresh (m, a) (List.mem_cons_self _ _)
    refine ih _ (rda_inv_insert s m a hinv hf.1 hf.2) ?_ hfst.2 hsnd.2
    intro q hq
    have hfq := hfresh q (List.mem_cons_of_mem _ hq)
    have hqm : q.1 ≠ m := by
      intro he
      exact hfst.1 (he ▸ List.mem_map_of_mem Prod.fst hq)
    have hqa : q.2 ≠ a := by
      intro he
      exact hsnd.1 (he ▸ List.mem_map_of_mem Prod.snd hq)
    constructor
    · simp only [dictLookup_dictInsert, if_neg hqm]
      exact hfq.1
    · simp only [dictLookup_dictInsert, if_neg hqa]
      exact hfq.2

/-- C7 counterexample: constructing a ReplicatedDistributedArray with
meshes 0, 1 and the same array 5 for both registers array 5 under both
meshes in the mesh-to-array dict, and the two dicts are not mutual
inverses: the claimed invariant does not hold after every construction. -/
theorem replicated_array_init_duplicate_counterexample :
    dictLookup (ReplicatedDistributedArray.init [0, 1] [5, 5]).mesh_array_map 0 = some 5 ∧
    dictLookup (ReplicatedDistributedArray.init [0, 1] [5, 5]).mesh_array_map 1 = some 5 ∧
    ¬ rda_inv (ReplicatedDistributedArray.init [0, 1] [5, 5]) := by
  refine ⟨by decide, by decide, fun h => ?_⟩
  have h05 : dictLookup (ReplicatedDistributedArray.init [0, 1] [5, 5]).mesh_array_map 0
      = some 5 := by decide
  have := (h 0 5).mp h05
  have hval : dictLookup (ReplicatedDistributedArray.init [0, 1] [5, 5]).array_mesh_map 5
      = some 1 := by decide
  rw [hval] at this
  cases this

/-- C7 amended: when the constructor's meshes are pairwise distinct and
its arrays are pairwise distinct, the mutual-inverse invariant holds
after construction; add_replica preserves it; add_replica fails with
AlreadyExists exactly when the array is registered under some mesh or
the mesh already holds a replica; and under the invariant no array is
registered under two meshes and no mesh entry repeats an array. -/
theorem replicated_array_inv_amended :
    (∀ device_meshes arrays : List Nat, device_meshes.Nodup → arrays.Nodup →
      rda_inv (ReplicatedDistributedArray.init device_meshes arrays)) ∧
    (∀ (s : ReplicatedDistributedArray) (mesh array : Nat) s', rda_inv s →
      s.add_replica mesh array = .ok s' → rda_inv s') ∧
    (∀ (s : ReplicatedDistributedArray) (mesh array : Nat),
      s.add_replica mesh array = .error .alreadyExists ↔
        (∃ m', dictLookup s.array_mesh_map array = some m') ∨
        (∃ a', dictLookup s.mesh_array_map mesh = some a')) ∧
    (∀ (s : ReplicatedDistributedArray) (m₁ m₂ a : Nat), rda_inv s →
      dictLookup s.mesh_array_map m₁ = some a →
      dictLookup s.mesh_array_map m₂ = some a → m₁ = m₂) := by
  refine ⟨?_, ?_, ?_, ?_⟩
  · intro device_meshes arrays hm ha
    refine rda_init_fold_inv (device_meshes.zip arrays) ⟨[], []⟩
      (fun m a => by simp [dictLookup]) (fun p _ => ⟨rfl, rfl⟩)
      ((zip_map_fst_sublist _ _).nodup hm) ((zip_map_snd_sublist _ _).nodup ha)
  · intro s mesh array s' hinv hok
    simp only [ReplicatedDistributedArray.add_replica] at hok
    cases ha : dictLookup s.array_mesh_map array with
    | some _ => simp [ha] at hok
    | none =>
      cases hm : dictLookup s.mesh_array_map mesh with
      | some _ => simp [ha, hm] at hok
      | none =>
        simp only [ha, hm] at hok
        cases hok
        exact rda_inv_insert s mesh array hinv hm ha
  · intro s mesh array
    simp only [ReplicatedDistributedArray.add_replica]
    cases ha : dictLookup s.array_mesh_map array with
    | some m' => simp
    | none =>
      cases hm : dictLookup s.mesh_array_map mesh with
      | some a' => simp
      | none => simp
  · intro s m₁ m₂ a hinv h₁ h₂
    have e₁ := (hinv m₁ a).mp h₁
    have e₂ := (hinv m₂ a).mp h₂
    rw [e₁] at e₂
    exact Option.some.inj e₂

/-- Witness for the amended C7 theorem: a construction from distinct
meshes and distinct arrays satisfies the invariant. -/
theorem replicated_array_inv_amended_witness :
    rda_inv (ReplicatedDistributedArray.init [0, 1] [4, 5]) :=
  replicated_array_inv_amended.1 [0, 1] [4, 5] (by decide) (by decide)

/-- Naming helper device_id_to_str (lines 44-46): canonical device
string, Python format string with three fields. -/
def device_id_to_str (host_ip : String) (device_id : Nat)
    (device_type : String := "gpu") : String :=
  host_ip ++ ":" ++ device_type ++ ":" ++ toString device_id

/-- A LogicalDeviceMesh as built by get_logical_mesh: the device-id grid
reshaped row-major (kept as its shape and flat row-major contents), and
the per-axis alpha and beta cost-model vectors. -/
structure LogicalDeviceMesh where
  id_mesh_shape : List Nat
  id_mesh_flat : List Nat
  mesh_alpha : List ℚ
  mesh_beta : List ℚ
deriving DecidableEq, Repr

/-- Python or-default for an optional list argument: the default is used
when the argument is None (or an empty list, which Python treats as
falsy). -/
def pyOrList (x : Option (List ℚ)) (dflt : List ℚ) : List ℚ :=
  match x with
  | none => dflt
  | some l => if l.isEmpty then dflt else l

/-- The mesh_topology argument of get_logical_mesh: None or the string
tree. -/
inductive MeshTopology where
  | tree
deriving DecidableEq, Repr

/-- PhysicalDeviceMesh fields used by the mesh-level operations
(lines 443-497): host ids, per-host node addresses from host_info, head
address, devices per host, per-host device-id lists, and the ray flag. -/
structure PhysicalDeviceMesh where
  host_ids : List Nat
  host_info : List String
  head_ip : String
  num_devices_per_host : Nat
  devices : List (List Nat)
  use_ray : Bool
deriving DecidableEq, Repr

/-- PhysicalDeviceMesh.num_hosts (lines 575-578). -/
def PhysicalDeviceMesh.num_hosts (m : PhysicalDeviceMesh) : Nat :=
  m.host_ids.length

/-- PhysicalDeviceMesh.device_ids_flat (lines 588-595). -/
def PhysicalDeviceMesh.device_ids_flat (m : PhysicalDeviceMesh) : List Nat :=
  m.devices.flatMap id

/-- PhysicalDeviceMesh.num_devices (lines 570-573). -/
def PhysicalDeviceMesh.num_devices (m : PhysicalDeviceMesh) : Nat :=
  m.device_ids_flat.length

/-- Entry at row i, column j of the host-id grid built by
get_logical_mesh for the tree topology (lines 621-624): arange of
num_hosts reshaped to a column, tiled num_devices_per_host wide, then
reshaped row-major to mesh_shape; the flat entry at i * m1 + j is
(i * m1 + j) / D where D is num_devices_per_host. -/
def host_id_at (D m1 i j : Nat) : Nat := (i * m1 + j) / D

/-- Normalization of a host pair to unordered form, as the source swaps
so that left is no greater than right. -/
def normPair (l r : Nat) : Nat × Nat := if l > r then (r, l) else (l, r)

/-- One defaultdict-int increment at key p. -/
def bumpCt (ct : Nat × Nat → Nat) (p : Nat × Nat) : Nat × Nat → Nat :=
  fun q => if q = p then ct p + 1 else ct q

/-- Iteration order of the axis-0 tally loops (lines 630-631): for j over
all columns, for i over all rows. -/
def axis0_cells (m0 m1 : Nat) : List (Nat × Nat) :=
  (List.range m1).flatMap (fun j => (List.range m0).map (fun i => (i, j)))

/-- Iteration order of the axis-1 tally loops (lines 656-657): for i over
all rows, for j over all columns. -/
def axis1_cells (m0 m1 : Nat) : List (Nat × Nat) :=
  (List.range m0).flatMap (fun i => (List.range m1).map (fun j => (i, j)))

/-- Axis-0 link tally of get_logical_mesh (lines 629-637): over every
column of the grid, walk the ring of rows and increment the defaultdict
entry of each unordered pair of distinct hosts crossed. -/
def host_link_ct0 (D m0 m1 : Nat) : Nat × Nat → Nat :=
  (axis0_cells m0 m1).foldl
    (fun ct ij =>
      if host_id_at D m1 ij.1 ij.2 ≠ host_id_at D m1 ((ij.1 + 1) % m0) ij.2 then
        bumpCt ct (normPair (host_id_at D m1 ij.1 ij.2)
          (host_id_at D m1 ((ij.1 + 1) % m0) ij.2))
      else ct)
    (fun _ => 0)

/-- Axis-1 link tally of get_logical_mesh (lines 655-663): over every row
of the grid, walk the ring of columns and increment the defaultdict
entry of each unordered pair of distinct hosts crossed. -/
def host_link_ct1 (D m0 m1 : Nat) : Nat × Nat → Nat :=
  (axis1_cells m0 m1).foldl
    (fun ct ij =>
      if host_id_at D m1 ij.1 ij.2 ≠ host_id_at D m1 ij.1 ((ij.2 + 1) % m1) then
        bumpCt ct (normPair (host_id_at D m1 ij.1 ij.2)
          (host_id_at D m1 ij.1 ((ij.2 + 1) % m1)))
      else ct)
    (fun _ => 0)

/-- Axis-0 bandwidth of get_logical_mesh (lines 639-652): starting from
the intra-host bandwidth, walk the ring of rows in column 0 and take the
minimum with inter_host_bandwidth divided by the tallied link count at
each crossing of distinct hosts. -/
def tree_bandwidth0 (D m0 m1 : Nat) (intra inter : ℚ) : ℚ :=
  (List.range m0).foldl
    (fun bandwidth i =>
      if host_id_at D m1 i 0 ≠ host_id_at D m1 ((i + 1) % m0) 0 then
        min bandwidth (inter /
          ((host_link_ct0 D m0 m1 (normPair (host_id_at D m1 i 0)
            (host_id_at D m1 ((i + 1) % m0) 0)) : Nat) : ℚ))
      else bandwidth)
    intra

/-- Axis-1 bandwidth of get_logical_mesh (lines 665-676): as axis 0 but
walking the ring of columns in row 0 with the axis-1 tally. -/
def tree_bandwidth1 (D m0 m1 : Nat) (intra inter : ℚ) : ℚ :=
  (List.range m1).foldl
    (fun bandwidth j =>
      if host_id_at D m1 0 j ≠ host_id_at D m1 0 ((j + 1) % m1) then
        min bandwidth (inter /
          ((host_link_ct1 D m0 m1 (normPair (host_id_at D m1 0 j)
            (host_id_at D m1 0 ((j + 1) % m1))) : Nat) : ℚ))
      else bandwidth)
    intra

/-- Axis-0 beta of the tree topology (line 652). -/
def tree_beta0 (D m0 m1 : Nat) (intra inter : ℚ) : ℚ :=
  1 / tree_bandwidth0 D m0 m1 intra inter

/-- Axis-1 beta of the tree topology (line 676). -/
def tree_beta1 (D m0 m1 : Nat) (intra inter : ℚ) : ℚ :=
  1 / tree_bandwidth1 D m0 m1 intra inter

/-- PhysicalDeviceMesh.get_logical_mesh (lines 603-678).  Without a
topology, alpha and beta default to all-ones vectors under Python
or-truthiness.  With the tree topology, the source asserts alpha and
beta were not supplied (PreconditionViolation otherwise), fixes alpha to
ones and computes beta per axis from the ring bandwidth model.  The
bandwidth arguments default to None in the source and are only read on
the tree path. -/
def PhysicalDeviceMesh.get_logical_mesh (m : PhysicalDeviceMesh)
    (mesh_shape : List Nat) (mesh_alpha mesh_beta : Option (List ℚ))
    (mesh_topology : Option MeshTopology)
    (intra_host_bandwidth inter_host_bandwidth : ℚ) :
    Except WorkerErr LogicalDeviceMesh :=
  match mesh_topology with
  | none =>
    .ok { id_mesh_shape := mesh_shape
          id_mesh_flat := List.range m.num_devices
          mesh_alpha := pyOrList mesh_alpha (List.replicate mesh_shape.length 1)
          mesh_beta := pyOrList mesh_beta (List.replicate mesh_shape.length 1) }
  | some .tree =>
    match mesh_alpha, mesh_beta with
    | none, none =>
      .ok { id_mesh_shape := mesh_shape
            id_mesh_flat := List.range m.num_devices
            mesh_alpha := [1, 1]
            mesh_beta := [tree_beta0 m.num_devices_per_host (mesh_shape.getD 0 0)
                            (mesh_shape.getD 1 0) intra_host_bandwidth inter_host_bandwidth,
                          tree_beta1 m.num_devices_per_host (mesh_shape.getD 0 0)
                            (mesh_shape.getD 1 0) intra_host_bandwidth inter_host_bandwidth] }
    | _, _ => .error .preconditionViolation

/-- PhysicalDeviceMesh.get_default_logical_mesh (lines 680-687): shape
(num_hosts, num_devices_per_host), alpha ones, beta ones on a single
host and the literal 0.01 second entry otherwise. -/
def PhysicalDeviceMesh.get_default_logical_mesh (m : PhysicalDeviceMesh) :
    Except WorkerErr LogicalDeviceMesh :=
  if m.num_hosts = 1 then
    m.get_logical_mesh [m.num_hosts, m.num_devices_per_host]
      (some [1, 1]) (some [1, 1]) none 0 0
  else
    m.get_logical_mesh [m.num_hosts, m.num_devices_per_host]
      (some [1, 1]) (some [1, 1/100]) none 0 0

/-- VirtualPhysicalMesh fields (lines 1018-1049): as the cluster-mode
PhysicalDeviceMesh but with no workers; host_info entries are the node
addresses. -/
structure VirtualPhysicalMesh where
  host_ids : List Nat
  host_info : List String
  head_ip : String
  num_devices_per_host : Nat
  devices : List (List Nat)
deriving DecidableEq, Repr, Inhabited

/-- VirtualPhysicalMesh.num_hosts (lines 1117-1120). -/
def VirtualPhysicalMesh.num_hosts (m : VirtualPhysicalMesh) : Nat :=
  m.host_ids.length

/-- VirtualPhysicalMesh.device_ids_flat (lines 1127-1134). -/
def VirtualPhysicalMesh.device_ids_flat (m : VirtualPhysicalMesh) : List Nat :=
  m.devices.flatMap id

/-- VirtualPhysicalMesh.num_devices (lines 1112-1115). -/
def VirtualPhysicalMesh.num_devices (m : VirtualPhysicalMesh) : Nat :=
  m.device_ids_flat.length

/-- VirtualPhysicalMesh.get_logical_mesh (lines 1151-1156): no topology
model; alpha and beta default to ones under Python or-truthiness. -/
def VirtualPhysicalMesh.get_logical_mesh (m : VirtualPhysicalMesh)
    (mesh_shape : List Nat) (mesh_alpha mesh_beta : Option (List ℚ)) :
    LogicalDeviceMesh :=
  { id_mesh_shape := mesh_shape
    id_mesh_flat := List.range m.num_devices
    mesh_alpha := pyOrList mesh_alpha (List.replicate mesh_shape.length 1)
    mesh_beta := pyOrList mesh_beta (List.replicate mesh_shape.length 1) }

/-- VirtualPhysicalMesh.get_default_logical_mesh (lines 1158-1165): as
the physical mesh default but with the distinct literal 0.1 in the
multi-host beta. -/
def VirtualPhysicalMesh.get_default_logical_mesh (m : VirtualPhysicalMesh) :
    LogicalDeviceMesh :=
  if m.num_hosts = 1 then
    m.get_logical_mesh [m.num_hosts, m.num_devices_per_host]
      (some [1, 1]) (some [1, 1])
  else
    m.get_logical_mesh [m.num_hosts, m.num_devices_per_host]
      (some [1, 1]) (some [1, 1/10])

/-- C5: the default logical mesh has alpha ones and beta ones on a
single host for both mesh kinds; on more than one host the driver-side
mesh handle uses beta with second entry 0.01 while the virtual mesh uses
the distinct literal 0.1. -/
theorem default_logical_mesh_beta_spec
    (p : PhysicalDeviceMesh) (v : VirtualPhysicalMesh) :
    (p.num_hosts = 1 →
      p.get_default_logical_mesh.map (fun l => (l.mesh_alpha, l.mesh_beta)) =
        .ok ([1, 1], [1, 1])) ∧
    (1 < p.num_hosts →
      p.get_default_logical_mesh.map (fun l => (l.mesh_alpha, l.mesh_beta)) =
        .ok ([1, 1], [1, 1/100])) ∧
    (v.num_hosts = 1 →
      (v.get_default_logical_mesh.mesh_alpha, v.get_default_logical_mesh.mesh_beta) =
        ([1, 1], [1, 1])) ∧
    (1 < v.num_hosts →
      (v.get_default_logical_mesh.mesh_alpha, v.get_default_logical_mesh.mesh_beta) =
        ([1, 1], [1, 1/10])) ∧
    (1/100 : ℚ) ≠ 1/10 := by
  refine ⟨?_, ?_, ?_, ?_, by norm_num⟩
  · intro h1
    simp [PhysicalDeviceMesh.get_default_logical_mesh, h1,
      PhysicalDeviceMesh.get_logical_mesh, pyOrList, Except.map]
  · intro h1
    have hne : ¬(p.num_hosts = 1) := by omega
    simp [PhysicalDeviceMesh.get_default_logical_mesh, hne,
      PhysicalDeviceMesh.get_logical_mesh, pyOrList, Except.map]
  · intro h1
    simp [VirtualPhysicalMesh.get_default_logical_mesh, h1,
      VirtualPhysicalMesh.get_logical_mesh, pyOrList]
  · intro h1
    have hne : ¬(v.num_hosts = 1) := by omega
    simp [VirtualPhysicalMesh.get_default_logical_mesh, hne,
      VirtualPhysicalMesh.get_logical_mesh, pyOrList]

/-- Witness for the C5 theorem on concrete one-host and two-host
meshes. -/
theorem default_logical_mesh_beta_spec_witness :
    (PhysicalDeviceMesh.get_default_logical_mesh
      ⟨[0], ["h0"], "h0", 2, [[0, 1]], false⟩).map
        (fun l => (l.mesh_alpha, l.mesh_beta)) = .ok ([1, 1], [1, 1]) ∧
    ((VirtualPhysicalMesh.get_default_logical_mesh
      ⟨[0, 1], ["h0", "h1"], "h0", 2, [[0, 1], [0, 1]]⟩).mesh_alpha,
     (VirtualPhysicalMesh.get_default_logical_mesh
      ⟨[0, 1], ["h0", "h1"], "h0", 2, [[0, 1], [0, 1]]⟩).mesh_beta) =
        ([1, 1], [1, 1/10]) := by
  constructor
  · exact (default_logical_mesh_beta_spec ⟨[0], ["h0"], "h0", 2, [[0, 1]], false⟩
      ⟨[0], ["h0"], "h0", 2, [[0, 1]]⟩).1 rfl
  · exact (default_logical_mesh_beta_spec ⟨[0], ["h0"], "h0", 2, [[0, 1]], false⟩
      ⟨[0, 1], ["h0", "h1"], "h0", 2, [[0, 1], [0, 1]]⟩).2.2.2.1 (by decide)

/-- Folding defaultdict increments over a list equals counting the items
that hit the key. -/
theorem foldl_bumpCt_count {γ : Type} (P : γ → Prop) [DecidablePred P]
    (f : γ → Nat × Nat) (items : List γ) :
    ∀ (ct : Nat × Nat → Nat) (p : Nat × Nat),
      items.foldl (fun ct c => if P c then bumpCt ct (f c) else ct) ct p =
        ct p + (items.filter (fun c => decide (P c ∧ f c = p))).length := by
  induction items with
  | nil =>
    intro ct p
    simp
  | cons c cs ih =>
    intro ct p
    by_cases hc : P c
    · simp only [List.foldl_cons, if_pos hc]
      rw [ih]
      by_cases hfc : f c = p
      · subst hfc
        have hd : decide (P c ∧ f c = f c) = true := by simp [hc]
        rw [List.filter_cons, hd]
        simp [bumpCt]
        omega
      · have hne : ¬(p = f c) := fun he => hfc he.symm
        have hd : decide (P c ∧ f c = p) = false := by simp [hfc]
        rw [List.filter_cons, hd]
        simp only [bumpCt, if_neg hne]
        simp
    · simp only [List.foldl_cons, if_neg hc]
      rw [ih]
      have hd : decide (P c ∧ f c = p) = false := by simp [hc]
      rw [List.filter_cons, hd]
      simp

/-- Axis-0 link tally as the C4 claim words it: restricted to column 0
only while walking the ring of rows, one link per unordered host pair
per boundary crossing. -/
def host_link_ct0_claim (D m0 m1 : Nat) (p : Nat × Nat) : Nat :=
  ((List.range m0).filter (fun i =>
    decide (host_id_at D m1 i 0 ≠ host_id_at D m1 ((i + 1) % m0) 0 ∧
      normPair (host_id_at D m1 i 0) (host_id_at D m1 ((i + 1) % m0) 0) = p))).length

/-- Axis-0 bandwidth under the C4 claim's column-0-only tally. -/
def tree_bandwidth0_claim (D m0 m1 : Nat) (intra inter : ℚ) : ℚ :=
  (List.range m0).foldl
    (fun bandwidth i =>
      if host_id_at D m1 i 0 ≠ host_id_at D m1 ((i + 1) % m0) 0 then
        min bandwidth (inter /
          ((host_link_ct0_claim D m0 m1 (normPair (host_id_at D m1 i 0)
            (host_id_at D m1 ((i + 1) % m0) 0)) : Nat) : ℚ))
      else bandwidth)
    intra

/-- Axis-0 beta under the C4 claim's column-0-only tally. -/
def tree_beta0_claim (D m0 m1 : Nat) (intra inter : ℚ) : ℚ :=
  1 / tree_bandwidth0_claim D m0 m1 intra inter

/-- Axis-0 link tally as the amended C4 claim words it: walking the ring
of rows in every column of the grid (not column 0 only), one link per
unordered host pair per boundary crossing, stated as a count. -/
def host_link_ct0_amended (D m0 m1 : Nat) (p : Nat × Nat) : Nat :=
  ((axis0_cells m0 m1).filter (fun ij =>
    decide (host_id_at D m1 ij.1 ij.2 ≠ host_id_at D m1 ((ij.1 + 1) % m0) ij.2 ∧
      normPair (host_id_at D m1 ij.1 ij.2)
        (host_id_at D m1 ((ij.1 + 1) % m0) ij.2) = p))).length

/-- Axis-1 link tally amended: walking the ring of columns in every row
(not row 0 only). -/
def host_link_ct1_amended (D m0 m1 : Nat) (p : Nat × Nat) : Nat :=
  ((axis1_cells m0 m1).filter (fun ij =>
    decide (host_id_at D m1 ij.1 ij.2 ≠ host_id_at D m1 ij.1 ((ij.2 + 1) % m1) ∧
      normPair (host_id_at D m1 ij.1 ij.2)
        (host_id_at D m1 ij.1 ((ij.2 + 1) % m1)) = p))).length

/-- Axis-0 bandwidth amended: minimum over the column-0 boundary
crossings, starting from the intra-host bandwidth, of the inter-host
bandwidth divided by the all-columns link count. -/
def tree_bandwidth0_amended (D m0 m1 : Nat) (intra inter : ℚ) : ℚ :=
  (List.range m0).foldl
    (fun bandwidth i =>
      if host_id_at D m1 i 0 ≠ host_id_at D m1 ((i + 1) % m0) 0 then
        min bandwidth (inter /
          ((host_link_ct0_amended D m0 m1 (normPair (host_id_at D m1 i 0)
            (host_id_at D m1 ((i + 1) % m0) 0)) : Nat) : ℚ))
      else bandwidth)
    intra

/-- Axis-1 bandwidth amended: minimum over the row-0 boundary crossings
of the inter-host bandwidth divided by the all-rows link count. -/
def tree_bandwidth1_amended (D m0 m1 : Nat) (intra inter : ℚ) : ℚ :=
  (List.range m1).foldl
    (fun bandwidth j =>
      if host_id_at D m1 0 j ≠ host_id_at D m1 0 ((j + 1) % m1) then
        min bandwidth (inter /
          ((host_link_ct1_amended D m0 m1 (normPair (host_id_at D m1 0 j)
            (host_id_at D m1 0 ((j + 1) % m1))) : Nat) : ℚ))
      else bandwidth)
    intra

/-- Axis-0 beta amended. -/
def tree_beta0_amended (D m0 m1 : Nat) (intra inter : ℚ) : ℚ :=
  1 / tree_bandwidth0_amended D m0 m1 intra inter

/-- Axis-1 beta amended. -/
def tree_beta1_amended (D m0 m1 : Nat) (intra inter : ℚ) : ℚ :=
  1 / tree_bandwidth1_amended D m0 m1 intra inter

theorem host_link_ct0_eq_amended (D m0 m1 : Nat) :
    host_link_ct0 D m0 m1 = host_link_ct0_amended D m0 m1 := by
  funext p
  rw [host_link_ct0, host_link_ct0_amended,
    foldl_bumpCt_count
      (fun ij : Nat × Nat =>
        host_id_at D m1 ij.1 ij.2 ≠ host_id_at D m1 ((ij.1 + 1) % m0) ij.2)
      (fun ij : Nat × Nat =>
        normPair (host_id_at D m1 ij.1 ij.2) (host_id_at D m1 ((ij.1 + 1) % m0) ij.2))
      (axis0_cells m0 m1) (fun _ => 0) p]
  simp

theorem host_link_ct1_eq_amended (D m0 m1 : Nat) :
    host_link_ct1 D m0 m1 = host_link_ct1_amended D m0 m1 := by
  funext p
  rw [host_link_ct1, host_link_ct1_amended,
    foldl_bumpCt_count
      (fun ij : Nat × Nat =>
        host_id_at D m1 ij.1 ij.2 ≠ host_id_at D m1 ij.1 ((ij.2 + 1) % m1))
      (fun ij : Nat × Nat =>
        normPair (host_id_at D m1 ij.1 ij.2) (host_id_at D m1 ij.1 ((ij.2 + 1) % m1)))
      (axis1_cells m0 m1) (fun _ => 0) p]
  simp

/-- C4 counterexample: a two-host mesh with two devices per host and
mesh_shape 2 x 2, unit bandwidths.  The source tallies the host pair
(0, 1) once per adjacent pair in every column, giving 4 links and
beta equal to [4, 1]; the claim's column-0-only tally gives 2 links and
an axis-0 beta of 2: the claim's description of the computation does not
match the code. -/
theorem tree_topology_col0_tally_counterexample :
    (PhysicalDeviceMesh.get_logical_mesh
        ⟨[0, 1], ["h0", "h1"], "h0", 2, [[0, 1], [0, 1]], true⟩
        [2, 2] none none (some .tree) 1 1).map (fun l => l.mesh_beta) =
      .ok [4, 1] ∧
    tree_beta0_claim 2 2 2 1 1 = 2 ∧
    ((4 : ℚ) ≠ 2) := by
  have hct : host_link_ct0 2 2 2 (0, 1) = 4 := by
    rw [host_link_ct0_eq_amended]
    decide
  have hctc : host_link_ct0_claim 2 2 2 (0, 1) = 2 := by decide
  refine ⟨?_, ?_, by norm_num⟩
  · simp only [PhysicalDeviceMesh.get_logical_mesh, Except.map]
    have hb0 : tree_beta0 2 2 2 1 1 = 4 := by
      rw [tree_beta0, tree_bandwidth0]
      norm_num [List.range_succ, host_id_at, normPair, hct, min_def]
    have hb1 : tree_beta1 2 2 2 1 1 = 1 := by
      rw [tree_beta1, tree_bandwidth1]
      norm_num [List.range_succ, host_id_at, normPair]
    simp only [List.getD_cons_zero, List.getD_cons_succ]
    norm_num [hb0, hb1]
  · rw [tree_beta0_claim, tree_bandwidth0_claim]
    norm_num [List.range_succ, host_id_at, normPair, hctc, min_def]

/-- C4 amended: get_logical_mesh with the tree topology (and alpha, beta
not supplied) sets alpha to ones and computes each beta entry by tallying
inter-host links per unordered host pair over the whole grid (every
column for axis 0, every row for axis 1) while walking the respective
ring, then taking the minimum bandwidth over the column-0 (resp. row-0)
boundary crossings only, starting from the intra-host bandwidth, with
beta the reciprocal of that bandwidth. -/
theorem get_logical_mesh_tree_amended (m : PhysicalDeviceMesh)
    (m0 m1 : Nat) (intra inter : ℚ) :
    m.get_logical_mesh [m0, m1] none none (some .tree) intra inter =
      .ok { id_mesh_shape := [m0, m1]
            id_mesh_flat := List.range m.num_devices
            mesh_alpha := [1, 1]
            mesh_beta := [tree_beta0_amended m.num_devices_per_host m0 m1 intra inter,
                          tree_beta1_amended m.num_devices_per_host m0 m1 intra inter] } := by
  simp only [PhysicalDeviceMesh.get_logical_mesh, List.getD_cons_zero,
    List.getD_cons_succ, tree_beta0, tree_beta1,
    tree_beta0_amended, tree_beta1_amended, tree_bandwidth0, tree_bandwidth1,
    tree_bandwidth0_amended, tree_bandwidth1_amended,
    host_link_ct0_eq_amended, host_link_ct1_eq_amended]

/-- Length of a flatMap over an index range whose blocks all have the
same length. -/
theorem flatMap_range_const_length {α : Type} (g : Nat → List α) (c : Nat) :
    ∀ n : Nat, (∀ j < n, (g j).length = c) →
      ((List.range n).flatMap g).length = n * c := by
  intro n
  induction n with
  | zero => intro _; simp
  | succ n ih =>
    intro hg
    rw [List.range_succ, List.flatMap_append]
    simp only [List.length_append, List.flatMap_cons, List.flatMap_nil, List.append_nil]
    rw [ih (fun j hj => hg j (by omega)), hg n (by omega)]
    ring

/-- Element at block position i, offset k, of a flatMap over an index
range whose blocks all have the same length c. -/
theorem flatMap_range_const_getD {α : Type} (g : Nat → List α) (c : Nat) (d : α) :
    ∀ (n i k : Nat), (∀ j < n, (g j).length = c) → i < n → k < c →
      ((List.range n).flatMap g).getD (i * c + k) d = (g i).getD k d := by
  intro n
  induction n with
  | zero => intro i k _ hi; omega
  | succ n ih =>
    intro i k hg hi hk
    rw [List.range_succ, List.flatMap_append]
    simp only [List.flatMap_cons, List.flatMap_nil, List.append_nil]
    by_cases hin : i < n
    · rw [List.getD_append]
      · exact ih i k (fun j hj => hg j (by omega)) hin hk
      · rw [flatMap_range_const_length g c n (fun j hj => hg j (by omega))]
        have h1 : (i + 1) * c ≤ n * c := Nat.mul_le_mul_right c (by omega)
        have h2 : i * c + k < (i + 1) * c := by
          rw [Nat.succ_mul]
          omega
        omega
    · have hieq : i = n := by omega
      subst hieq
      rw [List.getD_append_right]
      · rw [flatMap_range_const_length g c i (fun j hj => hg j (by omega))]
        congr 1
        omega
      · rw [flatMap_range_const_length g c i (fun j hj => hg j (by omega))]
        omega

/-- VirtualPhysicalMesh.slice_2d (lines 1079-1086): selects hosts by
position and installs the given per-host device-id lists; the new
devices-per-host count is the first given host's device-index count.
Python list indexing is modelled with getD (every caller in the file
indexes within bounds). -/
def VirtualPhysicalMesh.slice_2d (m : VirtualPhysicalMesh)
    (host_indices : List Nat) (device_indices : List (List Nat)) :
    VirtualPhysicalMesh :=
  { host_ids := host_indices.map (fun x => m.host_ids.getD x 0)
    host_info := host_indices.map (fun x => m.host_info.getD x "")
    head_ip := m.head_ip
    num_devices_per_host := (device_indices.headD []).length
    devices := device_indices }

/-- VirtualPhysicalMesh.slice_profiling_submeshes (lines 1088-1106):
carves the mesh into a grid of submeshes of the requested shape, one
slice_2d call per grid cell, iterating host blocks in the outer loop and
device blocks in the inner loop; remainders from the integer divisions
are dropped. -/
def VirtualPhysicalMesh.slice_profiling_submeshes (m : VirtualPhysicalMesh)
    (submesh_num_hosts submesh_num_devices_per_host : Nat) :
    List VirtualPhysicalMesh :=
  (List.range (m.host_ids.length / submesh_num_hosts)).flatMap (fun i =>
    (List.range (m.num_devices_per_host / submesh_num_devices_per_host)).map (fun j =>
      m.slice_2d (List.range' (i * submesh_num_hosts) submesh_num_hosts)
        ((List.range' (i * submesh_num_hosts) submesh_num_hosts).map
          (fun _ => List.range' (j * submesh_num_devices_per_host)
            submesh_num_devices_per_host))))

/-- C6: slice_profiling_submeshes returns exactly
(num_hosts / sh) * (num_devices_per_host / sd) submeshes; the submesh at
row-major grid position (i, j) is built by slice_2d over the contiguous
host-index range starting at i * sh and the contiguous device-index
range starting at j * sd; every submesh has shape (sh, sd); and the
host-index ranges of distinct host blocks are pairwise disjoint, as are
the device-index ranges of distinct device blocks. -/
theorem slice_profiling_submeshes_spec (m : VirtualPhysicalMesh) (sh sd : Nat)
    (hsh : 0 < sh) (hsd : 0 < sd) :
    (m.slice_profiling_submeshes sh sd).length =
      (m.host_ids.length / sh) * (m.num_devices_per_host / sd) ∧
    (∀ i j, i < m.host_ids.length / sh → j < m.num_devices_per_host / sd →
      (m.slice_profiling_submeshes sh sd).getD
          (i * (m.num_devices_per_host / sd) + j) default =
        m.slice_2d (List.range' (i * sh) sh)
          ((List.range' (i * sh) sh).map (fun _ => List.range' (j * sd) sd))) ∧
    (∀ s ∈ m.slice_profiling_submeshes sh sd,
      s.host_ids.length = sh ∧ s.num_devices_per_host = sd) ∧
    (∀ i i' : Nat, i ≠ i' →
      ∀ x ∈ List.range' (i * sh) sh, x ∉ List.range' (i' * sh) sh) ∧
    (∀ j j' : Nat, j ≠ j' →
      ∀ x ∈ List.range' (j * sd) sd, x ∉ List.range' (j' * sd) sd) := by
  have hblock : ∀ j < m.host_ids.length / sh,
      ((List.range (m.num_devices_per_host / sd)).map (fun k =>
        m.slice_2d (List.range' (j * sh) sh)
          ((List.range' (j * sh) sh).map
            (fun _ => List.range' (k * sd) sd)))).length =
        m.num_devices_per_host / sd := by
    intro j _
    simp
  refine ⟨?_, ?_, ?_, ?_, ?_⟩
  · exact flatMap_range_const_length _ _ _ hblock
  · intro i j hi hj
    rw [VirtualPhysicalMesh.slice_profiling_submeshes,
      flatMap_range_const_getD _ _ _ _ i j hblock hi hj,
      List.getD_eq_getElem _ _ (by simpa using hj)]
    simp
  · intro s hs
    simp only [VirtualPhysicalMesh.slice_profiling_submeshes, List.mem_flatMap,
      List.mem_map, List.mem_range] at hs
    obtain ⟨i, hi, j, hj, rfl⟩ := hs
    constructor
    · simp [VirtualPhysicalMesh.slice_2d]
    · obtain ⟨sh', rfl⟩ : ∃ sh', sh = sh' + 1 := ⟨sh - 1, by omega⟩
      simp [VirtualPhysicalMesh.slice_2d, List.range'_succ]
  · intro i i' hne x hx hx'
    rw [List.mem_range'_1] at hx hx'
    rcases Nat.lt_or_ge i i' with h | h
    · have : (i + 1) * sh ≤ i' * sh := Nat.mul_le_mul_right sh (by omega)
      rw [Nat.succ_mul] at this
      omega
    · have hlt : i' < i := by omega
      have : (i' + 1) * sh ≤ i * sh := Nat.mul_le_mul_right sh (by omega)
      rw [Nat.succ_mul] at this
      omega
  · intro j j' hne x hx hx'
    rw [List.mem_range'_1] at hx hx'
    rcases Nat.lt_or_ge j j' with h | h
    · have : (j + 1) * sd ≤ j' * sd := Nat.mul_le_mul_right sd (by omega)
      rw [Nat.succ_mul] at this
      omega
    · have hlt : j' < j := by omega
      have : (j' + 1) * sd ≤ j * sd := Nat.mul_le_mul_right sd (by omega)
      rw [Nat.succ_mul] at this
      omega

/-- Witness for the C6 theorem: a 2-host, 3-devices-per-host virtual
mesh sliced into 1 x 1 submeshes yields 2 * 3 of them. -/
theorem slice_profiling_submeshes_spec_witness :
    (VirtualPhysicalMesh.slice_profiling_submeshes
      ⟨[0, 1], ["h0", "h1"], "h0", 3, [[0, 1, 2], [0, 1, 2]]⟩ 1 1).length = 2 * 3 :=
  (slice_profiling_submeshes_spec
    ⟨[0, 1], ["h0", "h1"], "h0", 3, [[0, 1, 2], [0, 1, 2]]⟩ 1 1
    (by decide) (by decide)).1

/-- Device-identity-string construction shared by the cluster-mode
PhysicalDeviceMesh constructor (lines 491-497) and the
VirtualPhysicalMesh constructor (lines 1043-1049), which contain the
identical loop: for each position in host_ids, look up that one host's
address, then extend the list with one string per device id of every
host's device list (the inner comprehension iterates over all of
self.devices, and its loop variable shadows the host position), each
formatted with that single host's address. -/
def ray_device_strs (host_ids : List Nat) (host_ips : List String)
    (devices : List (List Nat)) : List String :=
  (List.range host_ids.length).flatMap (fun i =>
    devices.flatMap (fun devices_this_host =>
      devices_this_host.map (fun d => device_id_to_str (host_ips.getD i "") d)))

/-- C10: the constructed device-identity-string list has
host-count * (total device ids across all hosts) entries, one block per
host position; within host i's block, the entry at offset k is the k-th
device id of the concatenation of all hosts' device lists, formatted
with host i's address. -/
theorem ray_device_strs_shape (host_ids : List Nat) (host_ips : List String)
    (devices : List (List Nat)) :
    (ray_device_strs host_ids host_ips devices).length =
      host_ids.length * (devices.flatMap id).length ∧
    ∀ i k, i < host_ids.length → k < (devices.flatMap id).length →
      (ray_device_strs host_ids host_ips devices).getD
          (i * (devices.flatMap id).length + k) "" =
        device_id_to_str (host_ips.getD i "") ((devices.flatMap id).getD k 0) := by
  have hblock : ∀ i,
      devices.flatMap (fun devices_this_host =>
        devices_this_host.map (fun d => device_id_to_str (host_ips.getD i "") d)) =
      (devices.flatMap id).map (fun d => device_id_to_str (host_ips.getD i "") d) := by
    intro i
    induction devices with
    | nil => simp
    | cons dh rest ih => simp only [List.flatMap_cons, List.map_append, ih, id_eq]
  have hlen : ∀ i < host_ids.length,
      (devices.flatMap (fun devices_this_host =>
        devices_this_host.map (fun d =>
          device_id_to_str (host_ips.getD i "") d))).length =
      (devices.flatMap id).length := by
    intro i _
    rw [hblock i, List.length_map]
  constructor
  · exact flatMap_range_const_length _ _ _ hlen
  · intro i k hi hk
    rw [ray_device_strs, flatMap_range_const_getD _ _ _ _ i k hlen hi hk, hblock i,
      List.getD_eq_getElem _ _ (by rw [List.length_map]; exact hk),
      List.getD_eq_getElem _ _ hk]
    simp only [List.getElem_map]

/-- Witness for the C10 theorem: two hosts whose device lists hold one
and two device ids produce 2 * 3 strings, and the string at block 1,
offset 0 uses the second host's address with the first host's device
id. -/
theorem ray_device_strs_shape_witness :
    (ray_device_strs [4, 9] ["h0", "h1"] [[0], [1, 2]]).length = 2 * 3 ∧
    (ray_device_strs [4, 9] ["h0", "h1"] [[0], [1, 2]]).getD (1 * 3 + 0) "" =
      device_id_to_str "h1" 0 :=
  ⟨(ray_device_strs_shape [4, 9] ["h0", "h1"] [[0], [1, 2]]).1,
   (ray_device_strs_shape [4, 9] ["h0", "h1"] [[0], [1, 2]]).2 1 0
     (by decide) (by decide)⟩

/-- A remote buffer reference as minted on the driver side
(RemoteBufferRef of alpa.mesh_executable): owning host index, owning
device index, and the process-wide unique integer uuid. -/
structure RemoteBufferRef where
  host_id : Nat
  device_id : Nat
  uuid : Nat
deriving DecidableEq, Repr

/-- Driver-and-workers state that shard_args touches: the per-host
workers' buffer dicts, the driver-side counter backing fresh uuid
allocation for RemoteBufferRef, and an instrumentation count of
shard-dispatch-registry invocations (the spec's call-count
instrumentation). -/
structure MeshState (D : Type) where
  workers : List (MeshHostWorker D)
  next_uuid : Nat
  dispatch_count : Nat
deriving DecidableEq, Repr

/-- An argument to shard_args, by representation kind: a
DistributedArray (stored per-shard indices and remote buffer handles), a
ReplicatedDistributedArray (its mesh-to-replica dict, each replica a
DistributedArray), or a host-resident array. -/
inductive ShardArg (D ι : Type) where
  | dist (indices : List ι) (remote_buffers : List RemoteBufferRef)
  | replicated (mesh_array_map : List (Nat × (List ι × List RemoteBufferRef)))
  | host (data : D)
deriving DecidableEq, Repr

/-- The shard-argument dispatch registry shape (lines 1328-1336): a
partial, kind-indexed map from an argument to a sharding procedure that
takes the mesh state and the requested indices and returns new buffer
handles; dispatch on an unregistered kind fails (Unsupported). -/
def ShardRegistry (D ι : Type) : Type :=
  ShardArg D ι → Option (MeshState D → List ι → MeshState D × List RemoteBufferRef)

/-- One iteration of the shard_args loop in distributed mode
(lines 724-758).  A DistributedArray whose stored indices equal the
requested indices contributes its existing remote buffers and nothing
else happens; a ReplicatedDistributedArray must hold a replica on this
mesh (get_replica_on_mesh raises, NotFound, otherwise) whose indices
match (asserted in the source, PreconditionViolation otherwise) and
contributes that replica's buffers; every other case is the slow path:
the before/after memory round-trips on worker 0 read but do not change
worker state, the registry is consulted by the argument's kind (counted
in dispatch_count; Unsupported on an unregistered kind), and a donated
argument's delete call touches only the argument object (see
DistributedArray.delete), never the mesh state. -/
def shard_one_arg {D ι : Type} [DecidableEq ι] (registry : ShardRegistry D ι)
    (mesh_id : Nat) (st : MeshState D) (arg : ShardArg D ι) (indices : List ι)
    (donated : Bool) : Except WorkerErr (MeshState D × List RemoteBufferRef) :=
  match arg with
  | .dist arg_indices bufs =>
    if arg_indices = indices then .ok (st, bufs)
    else
      match registry (.dist arg_indices bufs) with
      | none => .error .unsupported
      | some handler =>
        .ok (handler { st with dispatch_count := st.dispatch_count + 1 } indices)
  | .replicated mam =>
    match dictLookup mam mesh_id with
    | none => .error .notFound
    | some replica =>
      if replica.1 = indices then .ok (st, replica.2)
      else .error .preconditionViolation
  | .host data =>
    match registry (.host data) with
    | none => .error .unsupported
    | some handler =>
      .ok (handler { st with dispatch_count := st.dispatch_count + 1 } indices)

/-- The shard_args loop over the zipped arguments (lines 723-759):
threads the mesh state through the per-argument step in order and
collects each argument's buffer handle list. -/
def shard_args_go {D ι : Type} [DecidableEq ι] (registry : ShardRegistry D ι)
    (mesh_id : Nat) (st : MeshState D) :
    List ((ShardArg D ι × List ι) × Bool) →
    Except WorkerErr (MeshState D × List (List RemoteBufferRef))
  | [] => .ok (st, [])
  | ((arg, indices), donated) :: rest =>
    match shard_one_arg registry mesh_id st arg indices donated with
    | .error e => .error e
    | .ok (st', bufs) =>
      match shard_args_go registry mesh_id st' rest with
      | .error e => .error e
      | .ok (st'', outs) => .ok (st'', bufs :: outs)

/-- PhysicalDeviceMesh.shard_args in distributed mode (lines 719-759):
zips the arguments with their requested indices and donation flags
(Python zip truncates to the shortest) and runs the loop. -/
def shard_args {D ι : Type} [DecidableEq ι] (registry : ShardRegistry D ι)
    (mesh_id : Nat) (arg_indices : List (List ι)) (donated_invars : List Bool)
    (args : List (ShardArg D ι)) (st : MeshState D) :
    Except WorkerErr (MeshState D × List (List RemoteBufferRef)) :=
  shard_args_go registry mesh_id st ((args.zip arg_indices).zip donated_invars)

/-- The per-host, per-device buffer placement of _device_mesh_put
(lines 1259-1277): for each host in order and each device slot on it,
mint a fresh RemoteBufferRef and ask that host's worker to put the next
shard on that device (put_buffer; the uuid is fresh by construction, so
its AlreadyExists branch is unreachable and a hypothetical collision is
modelled as leaving the worker unchanged). -/
def _device_mesh_put {D : Type} [Inhabited D] (num_hosts num_devices_per_host : Nat)
    (st : MeshState D) (shards : List D) : MeshState D × List RemoteBufferRef :=
  ((List.range num_hosts).flatMap (fun host_id =>
    (List.range num_devices_per_host).map (fun device_id => (host_id, device_id)))).foldl
    (fun acc hd =>
      let buf_ref : RemoteBufferRef := ⟨hd.1, hd.2, acc.1.next_uuid⟩
      let w := acc.1.workers.getD hd.1 ⟨[]⟩
      let w' := match put_buffer w buf_ref.uuid hd.2 (shards.getD acc.2.length default) with
        | .ok w2 => w2
        | .error _ => w
      ({ workers := acc.1.workers.set hd.1 w'
         next_uuid := acc.1.next_uuid + 1
         dispatch_count := acc.1.dispatch_count }, acc.2 ++ [buf_ref]))
    (st, [])

/-- The registered handler _shard_array (lines 1280-1282): slice the
host value at each requested index (indexing abstracted as index_fn) and
place the shards with _device_mesh_put. -/
def _shard_array {D ι : Type} [Inhabited D] (index_fn : D → ι → D)
    (num_hosts num_devices_per_host : Nat) (x : D) (st : MeshState D)
    (indices : List ι) : MeshState D × List RemoteBufferRef :=
  _device_mesh_put num_hosts num_devices_per_host st (indices.map (index_fn x))

/-- The shard-argument dispatch registry (lines 1328-1336) over the
argument kinds this embedding carries: host arrays dispatch to
_shard_array; DistributedArray dispatches to _shard_distributed_array
(lines 1322-1325), which re-dispatches on the kind of the materialized
value (materialization abstracted as the material parameter) as a host
array; ReplicatedDistributedArray has no registry entry. -/
def shard_arg_handlers {D ι : Type} [Inhabited D] (index_fn : D → ι → D)
    (material : List RemoteBufferRef → D) (num_hosts num_devices_per_host : Nat) :
    ShardRegistry D ι :=
  fun arg =>
    match arg with
    | .host data =>
      some (fun st indices =>
        _shard_array index_fn num_hosts num_devices_per_host data st indices)
    | .dist _ bufs =>
      some (fun st indices =>
        _shard_array index_fn num_hosts num_devices_per_host (material bufs) st indices)
    | .replicated _ => none

/-- The shard_args loop distributes over a matching-DistributedArray
element: its output is exactly the stored buffers and the state passed
to the remaining arguments is unchanged. -/
theorem shard_args_go_dist_fast_path {D ι : Type} [DecidableEq ι]
    (registry : ShardRegistry D ι) (mesh_id : Nat)
    (l₁ : List ((ShardArg D ι × List ι) × Bool)) :
    ∀ (st st₁ : MeshState D) (outs₁ : List (List RemoteBufferRef))
      (l₂ : List ((ShardArg D ι × List ι) × Bool)) (a_indices : List ι)
      (bufs : List RemoteBufferRef) (donated : Bool),
      shard_args_go registry mesh_id st l₁ = .ok (st₁, outs₁) →
      shard_args_go registry mesh_id st
          (l₁ ++ ((.dist a_indices bufs, a_indices), donated) :: l₂) =
        (shard_args_go registry mesh_id st₁ l₂).map
          (fun r => (r.1, outs₁ ++ bufs :: r.2)) := by
  induction l₁ with
  | nil =>
    intro st st₁ outs₁ l₂ a_indices bufs donated hrun
    simp only [shard_args_go] at hrun
    cases hrun
    simp only [List.nil_append, shard_args_go, shard_one_arg, if_pos rfl]
    cases h2 : shard_args_go registry mesh_id st l₂ with
    | error e => simp [h2, Except.map]
    | ok r =>
      obtain ⟨stf, o⟩ := r
      simp [h2, Except.map]
  | cons t rest ih =>
    intro st st₁ outs₁ l₂ a_indices bufs donated hrun
    obtain ⟨⟨arg, idx⟩, don⟩ := t
    simp only [shard_args_go] at hrun
    cases h1 : shard_one_arg registry mesh_id st arg idx don with
    | error e =>
      simp [h1] at hrun
    | ok p =>
      obtain ⟨st', bufs'⟩ := p
      simp only [h1] at hrun
      cases h2 : shard_args_go registry mesh_id st' rest with
      | error e =>
        simp [h2] at hrun
      | ok q =>
        obtain ⟨st'', outs''⟩ := q
        simp only [h2] at hrun
        cases hrun
        simp only [List.cons_append, shard_args_go, h1, List.append_eq]
        rw [ih st' st₁ outs'' l₂ a_indices bufs donated h2]
        cases h3 : shard_args_go registry mesh_id st₁ l₂ with
        | error e => simp [h3, Except.map]
        | ok r =>
          obtain ⟨stf, o⟩ := r
          simp [h3, Except.map]

/-- C3: for every registry, whenever the zipped argument list splits
around a DistributedArray argument whose stored indices equal its
requested indices, and the arguments before it process successfully to a
state, shard_args emits exactly that argument's existing remote buffer
handles for it and processes the remaining arguments from that same
state: no registry handler is invoked for it (dispatch_count unchanged),
no buffer is allocated (next_uuid unchanged), and every worker's buffer
dict is unchanged with respect to that argument. -/
theorem shard_args_dist_fast_path {D ι : Type} [DecidableEq ι]
    (registry : ShardRegistry D ι) (mesh_id : Nat)
    (arg_indices : List (List ι)) (donated_invars : List Bool)
    (args : List (ShardArg D ι)) (st st₁ : MeshState D)
    (outs₁ : List (List RemoteBufferRef))
    (l₁ l₂ : List ((ShardArg D ι × List ι) × Bool)) (a_indices : List ι)
    (bufs : List RemoteBufferRef) (donated : Bool)
    (hzip : (args.zip arg_indices).zip donated_invars =
      l₁ ++ ((.dist a_indices bufs, a_indices), donated) :: l₂)
    (hrun : shard_args_go registry mesh_id st l₁ = .ok (st₁, outs₁)) :
    shard_args registry mesh_id arg_indices donated_invars args st =
      (shard_args_go registry mesh_id st₁ l₂).map
        (fun r => (r.1, outs₁ ++ bufs :: r.2)) := by
  rw [shard_args, hzip]
  exact shard_args_go_dist_fast_path registry mesh_id l₁ st st₁ outs₁ l₂
    a_indices bufs donated hrun

/-- Witness for the C3 theorem: a one-worker mesh with the concrete
registry; the single matching DistributedArray argument is passed
through untouched, with the worker, uuid counter and dispatch count
unchanged. -/
theorem shard_args_dist_fast_path_witness :
    shard_args (D := Nat) (ι := Nat)
        (shard_arg_handlers (fun x i => x + i) (fun _ => 0) 1 1) 0
        [[3]] [false] [.dist [3] [⟨0, 0, 7⟩]] ⟨[⟨[]⟩], 0, 0⟩ =
      .ok (⟨[⟨[]⟩], 0, 0⟩, [[⟨0, 0, 7⟩]]) := by
  have h := shard_args_dist_fast_path (D := Nat) (ι := Nat)
    (shard_arg_handlers (fun x i => x + i) (fun _ => 0) 1 1) 0
    [[3]] [false] [.dist [3] [⟨0, 0, 7⟩]] ⟨[⟨[]⟩], 0, 0⟩ ⟨[⟨[]⟩], 0, 0⟩
    [] [] [] [3] [⟨0, 0, 7⟩] false rfl rfl
  exact h.trans rfl
